import Mathlib

/-!
Verification development for the `inventory-trading-websockets` server.

The TypeScript source is shallowly embedded as follows.

* A JavaScript `Map<K, V>` is an insertion-ordered association list
  `List (K × V)`: `Map.get` is `lookupA`, `Map.set` is `setA` (replace in
  place, else append), `Map.delete` is `eraseA` (keys of a `Map` are unique,
  so deleting the key is filtering it out).
* A JavaScript `Set<T>` is an insertion-ordered duplicate-free `List T`:
  `Set.add` is `sadd` (append if absent), `Set.delete` is `sdel` (elements
  of a `Set` are unique, so deleting an element is filtering it out),
  iteration is list traversal.
* Mutable objects shared by several map entries (the `TradeInfo` pairs of
  `TradeManager`) live in an explicit heap addressed by `Nat` references.
* Each method of a manager class becomes a function
  `args → State → State × List Event × Option Error`: the returned state is
  the state at normal return or at the point a JS exception is thrown, the
  event list records the injected-callback invocations in order, and the
  error is the thrown `UserError` / internal error, if any.
-/

section AssocMap

variable {α β : Type} [DecidableEq α]

/-- Lookup in an association list: first binding of the key wins,
mirroring a JS `Map.get`. -/
def lookupA : List (α × β) → α → Option β
  | [], _ => none
  | (a, b) :: t, k => if a = k then some b else lookupA t k

/-- JS `Map.set`: replace the binding in place if the key is present,
otherwise append the new binding. -/
def setA : List (α × β) → α → β → List (α × β)
  | [], k, v => [(k, v)]
  | (a, b) :: t, k, v => if a = k then (k, v) :: t else (a, b) :: setA t k v

/-- JS `Map.delete`: keys of a `Map` are unique, so removal deletes every
binding of the key. -/
def eraseA : List (α × β) → α → List (α × β)
  | [], _ => []
  | (a, b) :: t, k => if a = k then eraseA t k else (a, b) :: eraseA t k

end AssocMap

section JsSet

variable {α : Type} [DecidableEq α]

/-- JS `Set.add`: append the element if it is not already present. -/
def sadd (l : List α) (a : α) : List α :=
  if a ∈ l then l else l ++ [a]

/-- JS `Set.delete`: elements of a `Set` are unique, so removal is
filtering the element out. -/
def sdel (l : List α) (a : α) : List α :=
  l.filter (fun x => !(x = a))

end JsSet

/-! ## Types (`src/types.ts`) -/

/-- UserId is an opaque string (`src/types.ts`). -/
abbrev UserId := String

/-- Inventory is an ordered sequence of item identifiers
(`src/types.ts`: `type Inventory = string[]`). -/
abbrev Inventory := List String

/-!
## TradeManager

Embedding of the current revision of the `TradeManager` class (the one
wired to the final `TradeServer`): callbacks `onLockIn(userId, otherUserId,
selfInv, otherInv)`, `onUnlock(userId, otherUserId)`, `onCancel(userId,
otherUserId)`, `unlock` clearing `accepted`, and `inventoriesEqual`
comparing the sorted copies.
-/

namespace TradeManager

/-- UserTradeInfo record: `{ userId, inventory, lockedIn, accepted }`. -/
structure UserTradeInfo where
  userId : UserId
  inventory : Inventory
  lockedIn : Bool
  accepted : Bool
  deriving DecidableEq, Repr

/-- TradeInfo is the mutable pair `[UserTradeInfo, UserTradeInfo]` shared
by the two users of a trade. -/
abbrev TradeInfo := UserTradeInfo × UserTradeInfo

/-- Sorting step of `inventoriesEqual`: `inventory.slice().sort()`. -/
def sortInv (inv : Inventory) : Inventory :=
  inv.insertionSort (· ≤ ·)

/-- Comparison of two inventories (`inventoriesEqual`): false if the
lengths differ, otherwise the sorted copies are compared element by
element, which for equal-length lists is list equality. -/
def inventoriesEqual (inventory1 inventory2 : Inventory) : Bool :=
  if inventory1.length ≠ inventory2.length then false
  else sortInv inventory1 = sortInv inventory2

/-- Events emitted through the injected callbacks of `TradeManager`. -/
inductive TMEvent where
  | start (user1 user2 : UserId)
  | update (otherUserId : UserId) (inventory : Inventory)
  | lockedIn (userId otherUserId : UserId) (selfInv otherInv : Inventory)
  | unlocked (userId otherUserId : UserId)
  | cancelled (userId otherUserId : UserId)
  | complete (tradeInfo : TradeInfo)
  deriving DecidableEq, Repr

/-- Errors thrown by `TradeManager` methods: `InternalError` (user not in
a trade), `InventoryMistmatchError(expected, actual)` and
`CantCompleteEitherUnlockedError`. -/
inductive TMError where
  | internal
  | inventoryMismatch (expected actual : Inventory)
  | cantCompleteEitherUnlocked
  deriving DecidableEq, Repr

/-- State of a `TradeManager`: the `trades` map sends each user to a
reference into the heap of allocated `TradeInfo` pair objects (two users
of one trade share the reference, mirroring the shared JS object), and
`nextRef` is the next fresh reference. -/
structure TMState where
  trades : List (UserId × Nat)
  heap : List (Nat × TradeInfo)
  nextRef : Nat
  deriving DecidableEq, Repr

/-- Initial state: `trades = new Map()`. -/
def initTM : TMState := ⟨[], [], 0⟩

/-- Embedding of `getTradeInfo(userId)`: `none` when the user is not in
the `trades` map (JS throws `InternalError` there). On success it returns
`(self, other, ref, selfIsFirst)`, where `self` is the component whose
`userId` matches (the second component is taken otherwise, as in the
source identity comparison) and `selfIsFirst` records the position so
that writes can be put back in heap order. The heap lookup never fails
for states built by the operations; it is mapped to `none` as well. -/
def getT (s : TMState) (u : UserId) :
    Option (UserTradeInfo × UserTradeInfo × Nat × Bool) :=
  match lookupA s.trades u with
  | none => none
  | some r =>
    match lookupA s.heap r with
    | none => none
    | some (info1, info2) =>
      if info1.userId = u then some (info1, info2, r, true)
      else some (info2, info1, r, false)

/-- Write the (self, other) pair back to the heap at reference `r`,
restoring the stored component order. -/
def putT (s : TMState) (r : Nat) (fst : Bool)
    (selfInfo otherInfo : UserTradeInfo) : TMState :=
  let pair : TradeInfo :=
    if fst then (selfInfo, otherInfo) else (otherInfo, selfInfo)
  { s with heap := setA s.heap r pair }

/-- Embedding of `startTrade(user1, user2)`: allocate a fresh pair with
empty, unlocked, unaccepted sides and register it for both users. -/
def startTrade (user1 user2 : UserId) (s : TMState) :
    TMState × List TMEvent × Option TMError :=
  let pair : TradeInfo :=
    (⟨user1, [], false, false⟩, ⟨user2, [], false, false⟩)
  let r := s.nextRef
  ({ trades := setA (setA s.trades user1 r) user2 r,
     heap := setA s.heap r pair,
     nextRef := r + 1 },
   [.start user1 user2], none)

/-- Embedding of the private `unlockBothUsersFromTradeOf(userId)`: each
side that is locked in is unlocked, its `accepted` flag cleared, and its
`onUnlock` callback fired. Called only with users that are in a trade;
the impossible missing case returns the state unchanged. -/
def unlockBothUsersFromTradeOf (u : UserId) (s : TMState) :
    TMState × List TMEvent :=
  match getT s u with
  | none => (s, [])
  | some (selfInfo, otherInfo, r, fst) =>
    if selfInfo.lockedIn then
      if otherInfo.lockedIn then
        (putT s r fst { selfInfo with lockedIn := false, accepted := false }
           { otherInfo with lockedIn := false, accepted := false },
         [TMEvent.unlocked u otherInfo.userId,
          TMEvent.unlocked otherInfo.userId u])
      else
        (putT s r fst { selfInfo with lockedIn := false, accepted := false }
           otherInfo,
         [TMEvent.unlocked u otherInfo.userId])
    else
      if otherInfo.lockedIn then
        (putT s r fst selfInfo
           { otherInfo with lockedIn := false, accepted := false },
         [TMEvent.unlocked otherInfo.userId u])
      else (s, [])

/-- Embedding of `updateInventory(userId, inventory)`: store the new
inventory, unlock both users, then fire `onUpdate(otherId, inventory)`. -/
def updateInventory (u : UserId) (inv : Inventory) (s : TMState) :
    TMState × List TMEvent × Option TMError :=
  match getT s u with
  | none => (s, [], some .internal)
  | some (selfInfo, otherInfo, r, fst) =>
    let s1 := putT s r fst { selfInfo with inventory := inv } otherInfo
    let (s2, evs) := unlockBothUsersFromTradeOf u s1
    (s2, evs ++ [.update otherInfo.userId inv], none)

/-- Embedding of `lockIn(userId, selfInventory, otherInventory)`: throw
`InventoryMistmatchError` when either claimed inventory differs from the
stored one under `inventoriesEqual`, otherwise set `lockedIn` and fire
`onLockIn(userId, otherUserId, selfInventory, otherInventory)`. -/
def lockIn (u : UserId) (selfInventory otherInventory : Inventory)
    (s : TMState) : TMState × List TMEvent × Option TMError :=
  match getT s u with
  | none => (s, [], some .internal)
  | some (selfInfo, otherInfo, r, fst) =>
    if inventoriesEqual selfInfo.inventory selfInventory = false then
      (s, [], some (.inventoryMismatch selfInfo.inventory selfInventory))
    else if inventoriesEqual otherInfo.inventory otherInventory = false then
      (s, [], some (.inventoryMismatch otherInfo.inventory otherInventory))
    else
      (putT s r fst { selfInfo with lockedIn := true } otherInfo,
       [.lockedIn u otherInfo.userId selfInventory otherInventory], none)

/-- Embedding of `unlock(userId)`: clear `lockedIn` and `accepted`, fire
`onUnlock(userId, otherId)`. -/
def unlock (u : UserId) (s : TMState) :
    TMState × List TMEvent × Option TMError :=
  match getT s u with
  | none => (s, [], some .internal)
  | some (selfInfo, otherInfo, r, fst) =>
    (putT s r fst { selfInfo with lockedIn := false, accepted := false }
       otherInfo,
     [.unlocked u otherInfo.userId], none)

/-- Embedding of `cancelTrade(userId)`: delete both registry entries and
fire `onCancel(userId, otherId)`. The pair object stays in the heap,
unreachable, as in JS. -/
def cancelTrade (u : UserId) (s : TMState) :
    TMState × List TMEvent × Option TMError :=
  match getT s u with
  | none => (s, [], some .internal)
  | some (_, otherInfo, _, _) =>
    ({ s with trades := eraseA (eraseA s.trades u) otherInfo.userId },
     [.cancelled u otherInfo.userId], none)

/-- Embedding of `completeTrade(userId)`: throw
`CantCompleteEitherUnlockedError` unless both sides are locked in; set
`self.accepted`; if the other side had already accepted, delete both
registry entries and fire `onComplete([selfInfo, otherInfo])`. -/
def completeTrade (u : UserId) (s : TMState) :
    TMState × List TMEvent × Option TMError :=
  match getT s u with
  | none => (s, [], some .internal)
  | some (selfInfo, otherInfo, r, fst) =>
    if ¬selfInfo.lockedIn ∨ ¬otherInfo.lockedIn then
      (s, [], some .cantCompleteEitherUnlocked)
    else
      let selfInfo' := { selfInfo with accepted := true }
      let s1 := putT s r fst selfInfo' otherInfo
      if otherInfo.accepted then
        ({ s1 with
            trades := eraseA (eraseA s1.trades u) otherInfo.userId },
         [.complete (selfInfo', otherInfo)], none)
      else (s1, [], none)

/-- Embedding of `userDisconnected(userId)`: the body of the method in
the current revision is only a `// TODO` comment, so it mutates nothing
and fires no callback. -/
def userDisconnected (_u : UserId) (s : TMState) :
    TMState × List TMEvent × Option TMError :=
  (s, [], none)

/-- Names of the public `TradeManager` operations, for reachability
statements. -/
inductive TMOp where
  | startTrade (user1 user2 : UserId)
  | updateInventory (u : UserId) (inv : Inventory)
  | lockIn (u : UserId) (selfInv otherInv : Inventory)
  | unlock (u : UserId)
  | cancelTrade (u : UserId)
  | completeTrade (u : UserId)
  deriving DecidableEq, Repr

/-- Dispatch an operation name to its implementation. -/
def applyTM : TMOp → TMState → TMState × List TMEvent × Option TMError
  | .startTrade u1 u2, s => startTrade u1 u2 s
  | .updateInventory u inv, s => updateInventory u inv s
  | .lockIn u a b, s => lockIn u a b s
  | .unlock u, s => unlock u s
  | .cancelTrade u, s => cancelTrade u s
  | .completeTrade u, s => completeTrade u s

/-- State evolution of an operation: a thrown error leaves the returned
state, which for every `TradeManager` operation is the state before the
call (all validation precedes mutation). -/
def stepTM (op : TMOp) (s : TMState) : TMState :=
  (applyTM op s).1

/-- States reachable from the empty manager by a sequence of
operations. -/
def TMReachable (s : TMState) : Prop :=
  ∃ ops : List TMOp, s = ops.foldl (fun t op => stepTM op t) initTM

/-- One side of a trade satisfies the `accepted ⇒ lockedIn`
discipline. -/
def sideOK (i : UserTradeInfo) : Prop :=
  i.accepted = true → i.lockedIn = true

/-- Both sides of a pair satisfy `accepted ⇒ lockedIn`. -/
def pairOK (p : TradeInfo) : Prop :=
  sideOK p.1 ∧ sideOK p.2

/-- Every allocated pair satisfies `accepted ⇒ lockedIn`. -/
def HeapInv (s : TMState) : Prop :=
  ∀ r p, lookupA s.heap r = some p → pairOK p

end TradeManager

/-!
## InviteManager, revision with pendingNotifications

Embedding of the `InviteManager` revision that keeps, per user, an
`InviteInfo` record with `inviteSentTo`, `pendingInvites`,
`pendingNotifications` and `connected` (the revision the specification's
§4.2 describes). `getInfo` lazily materialises a default record; reads
are embedded as a total view (`info`) in which an absent entry equals the
default record, which is observationally identical.
-/

namespace InviteManager

/-- InviteInfo record of one user. -/
structure InviteInfo where
  inviteSentTo : Option UserId := none
  pendingInvites : List UserId := []
  pendingNotifications : List UserId := []
  connected : Bool := false
  deriving DecidableEq, Repr

/-- State of the manager: the `inviteInfo` map. -/
structure IMState where
  inviteInfo : List (UserId × InviteInfo)
  deriving DecidableEq, Repr

/-- Initial state: `inviteInfo = new Map()`. -/
def initIM : IMState := ⟨[]⟩

/-- Read of `getInfo(userId)`: an absent entry reads as the default
record that `getInfo` would materialise. -/
def info (s : IMState) (u : UserId) : InviteInfo :=
  (lookupA s.inviteInfo u).getD {}

/-- Write a user's record back into the map. -/
def setInfo (s : IMState) (u : UserId) (i : InviteInfo) : IMState :=
  ⟨setA s.inviteInfo u i⟩

/-- Events fired through the injected callbacks `onSend`, `onAccept`,
`onReject`, `onCancel`. -/
inductive IMEvent where
  | sent (sender recipient : UserId)
  | accepted (sender recipient : UserId)
  | rejected (sender recipient : UserId)
  | cancelled (sender recipient : UserId)
  deriving DecidableEq, Repr

/-- Errors thrown by the manager: plain internal `Error`s,
`InvalidInviteError(from, to)`, and (in the final revision only)
`SelfInviteError`. -/
inductive IMError where
  | internal
  | invalidInvite (sender recipient : UserId)
  | selfInvite
  deriving DecidableEq, Repr

/-- Embedding of `inviteExists(from, to)`:
`getInfo(from).inviteSentTo === to`. -/
def inviteExists (f t : UserId) (s : IMState) : Bool :=
  (info s f).inviteSentTo = some t

/-- Embedding of the private `addPendingInvite(from, to)`: throw an
internal error when `from` already has an outbound invite, otherwise set
`from.inviteSentTo` and add `from` to `to.pendingInvites`. -/
def addPendingInvite (f t : UserId) (s : IMState) : IMState × Option IMError :=
  let fi := info s f
  match fi.inviteSentTo with
  | some _ => (s, some .internal)
  | none =>
    let s1 := setInfo s f { fi with inviteSentTo := some t }
    let ti := info s1 t
    (setInfo s1 t { ti with pendingInvites := sadd ti.pendingInvites f }, none)

/-- Embedding of the private `addPendingNotification(from, to)`. -/
def addPendingNotification (f t : UserId) (s : IMState) : IMState :=
  let ti := info s t
  setInfo s t { ti with pendingNotifications := sadd ti.pendingNotifications f }

/-- Embedding of the private `removePendingInvite(from, to)`: clear
`from.inviteSentTo` and remove `from` from `to.pendingInvites`. The
recipient's `pendingNotifications` is not touched in this revision. -/
def removePendingInvite (f t : UserId) (s : IMState) : IMState :=
  let fi := info s f
  let s1 := setInfo s f { fi with inviteSentTo := none }
  let ti := info s1 t
  setInfo s1 t { ti with pendingInvites := sdel ti.pendingInvites f }

/-- Embedding of `sendInvite(from, to)`: register the pending invite; if
the recipient is connected fire `onSend`, otherwise queue a pending
notification. -/
def sendInvite (f t : UserId) (s : IMState) :
    IMState × List IMEvent × Option IMError :=
  match addPendingInvite f t s with
  | (s1, some e) => (s1, [], some e)
  | (s1, none) =>
    if (info s1 t).connected then (s1, [.sent f t], none)
    else (addPendingNotification f t s1, [], none)

/-- Embedding of `cancelInvite(from)`: throw internally when `from` has
no outbound invite, `InvalidInviteError` when the pairing does not exist,
otherwise remove the pairing and fire `onCancel`. -/
def cancelInvite (f : UserId) (s : IMState) :
    IMState × List IMEvent × Option IMError :=
  match (info s f).inviteSentTo with
  | none => (s, [], some .internal)
  | some t =>
    if inviteExists f t s then
      (removePendingInvite f t s, [.cancelled f t], none)
    else (s, [], some (.invalidInvite f t))

/-- Embedding of `acceptInvite(from, to)`. -/
def acceptInvite (f t : UserId) (s : IMState) :
    IMState × List IMEvent × Option IMError :=
  if inviteExists f t s then
    (removePendingInvite f t s, [.accepted f t], none)
  else (s, [], some (.invalidInvite f t))

/-- Embedding of `rejectInvite(from, to)`. -/
def rejectInvite (f t : UserId) (s : IMState) :
    IMState × List IMEvent × Option IMError :=
  if inviteExists f t s then
    (removePendingInvite f t s, [.rejected f t], none)
  else (s, [], some (.invalidInvite f t))

/-- Embedding of `userConnected(userId)`: fire `onSend(from, userId)` for
every queued pending notification, clear the queue, set `connected`. -/
def userConnected (u : UserId) (s : IMState) :
    IMState × List IMEvent × Option IMError :=
  let i := info s u
  (setInfo s u { i with pendingNotifications := [], connected := true },
   i.pendingNotifications.map (fun f => IMEvent.sent f u), none)

/-- Iteration of `for (const from of pendingInvites) rejectInvite(from,
userId)` inside `userDisconnected`: `rejectInvite` deletes exactly the
element being visited, so iterating the live JS set equals folding over
its snapshot; a thrown error aborts the loop and propagates. -/
def rejectLoop (u : UserId) : List UserId → IMState →
    IMState × List IMEvent × Option IMError
  | [], s => (s, [], none)
  | f :: rest, s =>
    match rejectInvite f u s with
    | (s1, evs1, some e) => (s1, evs1, some e)
    | (s1, evs1, none) =>
      match rejectLoop u rest s1 with
      | (s2, evs2, e) => (s2, evs1 ++ evs2, e)

/-- Tail of `userDisconnected` after the outbound invite has been dealt
with: reject every inbound invite (from the sender's side), then clear
`pendingInvites` and set `connected := false`; a throw inside the loop
aborts before the clearing. -/
def disconnectTail (u : UserId) (evs1 : List IMEvent) (s1 : IMState) :
    IMState × List IMEvent × Option IMError :=
  match rejectLoop u (info s1 u).pendingInvites s1 with
  | (s2, evs2, some e) => (s2, evs1 ++ evs2, some e)
  | (s2, evs2, none) =>
    let i2 := info s2 u
    (setInfo s2 u { i2 with pendingInvites := [], connected := false },
     evs1 ++ evs2, none)

/-- Embedding of `userDisconnected(userId)`: cancel the outbound invite
if any, reject every inbound invite from the sender's side, clear
`pendingInvites`, set `connected := false`. -/
def userDisconnected (u : UserId) (s : IMState) :
    IMState × List IMEvent × Option IMError :=
  let i := info s u
  match i.inviteSentTo with
  | some _ =>
    match cancelInvite u s with
    | (s1, evs1, some e) => (s1, evs1, some e)
    | (s1, evs1, none) => disconnectTail u evs1 s1
  | none => disconnectTail u [] s

/-- Names of the `InviteManager` operations. -/
inductive IMOp where
  | sendInvite (f t : UserId)
  | cancelInvite (f : UserId)
  | acceptInvite (f t : UserId)
  | rejectInvite (f t : UserId)
  | userConnected (u : UserId)
  | userDisconnected (u : UserId)
  deriving DecidableEq, Repr

/-- Dispatch an operation name to its implementation. -/
def applyIM : IMOp → IMState → IMState × List IMEvent × Option IMError
  | .sendInvite f t, s => sendInvite f t s
  | .cancelInvite f, s => cancelInvite f s
  | .acceptInvite f t, s => acceptInvite f t s
  | .rejectInvite f t, s => rejectInvite f t s
  | .userConnected u, s => userConnected u s
  | .userDisconnected u, s => userDisconnected u s

/-- The invite-graph invariant: `u.inviteSentTo = v ⟺ u ∈
v.pendingInvites`. -/
def Inv (s : IMState) : Prop :=
  ∀ u v : UserId,
    (info s u).inviteSentTo = some v ↔ u ∈ (info s v).pendingInvites

end InviteManager

/-!
## InviteManager, final revision

Embedding of the `sendInvite` path of the final `InviteManager` revision
(the one constructed by the final `TradeServer` and exercised by the test
suite): it rejects self-invites with `SelfInviteError` before touching
any state, and has no pendingNotifications queue (on reconnect the whole
`pendingInvites` set is replayed instead).
-/

namespace InviteManagerFinal

/-- InviteInfo record of the final revision: no pendingNotifications. -/
structure InviteInfo where
  inviteSentTo : Option UserId := none
  pendingInvites : List UserId := []
  connected : Bool := false
  deriving DecidableEq, Repr

/-- State of the final-revision manager. -/
structure IMState where
  inviteInfo : List (UserId × InviteInfo)
  deriving DecidableEq, Repr

/-- Read of `getInfo(userId)` with absent entries as the default
record. -/
def info (s : IMState) (u : UserId) : InviteInfo :=
  (lookupA s.inviteInfo u).getD {}

/-- Write a user's record back into the map. -/
def setInfo (s : IMState) (u : UserId) (i : InviteInfo) : IMState :=
  ⟨setA s.inviteInfo u i⟩

/-- Embedding of the private `addPendingInvite(from, to)` of the final
revision. -/
def addPendingInvite (f t : UserId) (s : IMState) :
    IMState × Option InviteManager.IMError :=
  let fi := info s f
  match fi.inviteSentTo with
  | some _ => (s, some .internal)
  | none =>
    let s1 := setInfo s f { fi with inviteSentTo := some t }
    let ti := info s1 t
    (setInfo s1 t { ti with pendingInvites := sadd ti.pendingInvites f }, none)

/-- Embedding of `sendInvite(from, to)` of the final revision: throw
`SelfInviteError` when `from === to`, before any state is read or
written; otherwise register the invite and notify the recipient if
connected (no notification queue exists in this revision). -/
def sendInvite (f t : UserId) (s : IMState) :
    IMState × List InviteManager.IMEvent × Option InviteManager.IMError :=
  if f = t then (s, [], some .selfInvite)
  else
    match addPendingInvite f t s with
    | (s1, some e) => (s1, [], some e)
    | (s1, none) =>
      if (info s1 t).connected then (s1, [.sent f t], none)
      else (s1, [], none)

end InviteManagerFinal

/-!
## TradeServer

Embedding of the registry action of `handleAuthenticate(socket, token)`
in the final `TradeServer` revision. `verify` abstracts the external
`verifyToken` (and the development mode that takes the token as the
userId); a failed verification throws `AuthError`. The
`inviteManager.userConnected` call and the logging are omitted: they do
not touch the connection registry. The method performs no check of
whether the resolved userId is already registered.
-/

namespace TradeServer

/-- UserState enumeration (`src/types.ts`). -/
inductive UserState where
  | noUserId
  | inLobby
  | sentInvite
  | inTrade
  | lockedIn
  deriving DecidableEq, Repr

/-- Per-socket `socket.data` fragment touched by `handleAuthenticate`. -/
structure SocketData where
  userId : Option UserId := none
  state : UserState := .noUserId
  deriving DecidableEq, Repr

/-- Server state: the `userIdToSocket` registry and the data of each
socket (sockets are identified by numbers). -/
structure ServerState where
  userIdToSocket : List (UserId × Nat)
  socketData : List (Nat × SocketData)
  deriving DecidableEq, Repr

/-- Errors surfaced by `handleAuthenticate`. -/
inductive ServerError where
  | authError (token : String)
  deriving DecidableEq, Repr

/-- Embedding of `handleAuthenticate`: resolve the userId from the token,
then unconditionally `userIdToSocket.set(userId, socket)` and initialise
the socket's data to the in-lobby state. -/
def handleAuthenticate (verify : String → Option UserId) (socket : Nat)
    (token : String) (s : ServerState) : ServerState × Option ServerError :=
  match verify token with
  | none => (s, some (.authError token))
  | some userId =>
    ({ userIdToSocket := setA s.userIdToSocket userId socket,
       socketData := setA s.socketData socket ⟨some userId, .inLobby⟩ },
     none)

end TradeServer

/-!
## Lemmas about the embedding primitives
-/

section AssocMapLemmas

variable {α β : Type} [DecidableEq α]

theorem lookupA_setA (l : List (α × β)) (k : α) (v : β) (k' : α) :
    lookupA (setA l k v) k' = if k' = k then some v else lookupA l k' := by
  induction l with
  | nil =>
    simp only [setA, lookupA]
    split_ifs <;> simp_all
  | cons hd t ih =>
    obtain ⟨a, b⟩ := hd
    simp only [setA]
    by_cases hak : a = k
    · subst hak
      simp only [if_pos rfl, lookupA]
      split_ifs <;> first | rfl | simp_all
    · simp only [if_neg hak, lookupA, ih]
      split_ifs <;> first | rfl | simp_all

theorem lookupA_eraseA (l : List (α × β)) (k k' : α) :
    lookupA (eraseA l k) k' = if k' = k then none else lookupA l k' := by
  induction l with
  | nil => simp [eraseA, lookupA]
  | cons hd t ih =>
    obtain ⟨a, b⟩ := hd
    simp only [eraseA]
    by_cases hak : a = k
    · subst hak
      simp only [if_pos rfl, ih, lookupA]
      split_ifs <;> first | rfl | simp_all
    · simp only [if_neg hak, lookupA, ih]
      split_ifs <;> first | rfl | simp_all

theorem mem_sadd (l : List α) (a x : α) : x ∈ sadd l a ↔ x ∈ l ∨ x = a := by
  by_cases h : a ∈ l
  · simp only [sadd, if_pos h]
    constructor
    · exact Or.inl
    · rintro (hx | rfl) <;> assumption
  · simp [sadd, if_neg h]

theorem mem_sdel (l : List α) (a x : α) : x ∈ sdel l a ↔ x ∈ l ∧ x ≠ a := by
  simp [sdel]

end AssocMapLemmas

namespace TradeManager

theorem sortInv_perm (inv : Inventory) : (sortInv inv).Perm inv :=
  List.perm_insertionSort _ inv

theorem sortInv_sorted (inv : Inventory) :
    List.Sorted (· ≤ ·) (sortInv inv) :=
  List.sorted_insertionSort _ inv

/-- Characterisation of `inventoriesEqual`: it decides multiset equality
(list permutation). -/
theorem inventoriesEqual_iff_perm (a b : Inventory) :
    inventoriesEqual a b = true ↔ a.Perm b := by
  unfold inventoriesEqual
  by_cases h : a.length = b.length
  · simp only [h, ne_eq, not_true_eq_false, if_false, decide_eq_true_eq]
    constructor
    · intro hs
      exact ((sortInv_perm a).symm.trans (hs ▸ sortInv_perm b))
    · intro hp
      have hperm : (sortInv a).Perm (sortInv b) :=
        ((sortInv_perm a).trans hp).trans (sortInv_perm b).symm
      exact List.eq_of_perm_of_sorted hperm (sortInv_sorted a) (sortInv_sorted b)
  · have hnp : ¬ a.Perm b := fun hp => h hp.length_eq
    simp [h, hnp]

end TradeManager

namespace TradeManager

/-- Unpacking of a successful `getTradeInfo`: the registry maps `u` to
`r`, and the heap pair at `r` is the (self, other) pair in stored order,
with the identity comparison of the source deciding the orientation. -/
theorem getT_eq_some (s : TMState) (u : UserId)
    (selfInfo otherInfo : UserTradeInfo) (r : Nat) (fst : Bool)
    (h : getT s u = some (selfInfo, otherInfo, r, fst)) :
    lookupA s.trades u = some r ∧
    ((fst = true ∧ lookupA s.heap r = some (selfInfo, otherInfo) ∧
        selfInfo.userId = u) ∨
     (fst = false ∧ lookupA s.heap r = some (otherInfo, selfInfo) ∧
        otherInfo.userId ≠ u)) := by
  unfold getT at h
  rcases hT : lookupA s.trades u with _ | r'
  · rw [hT] at h; simp at h
  · rw [hT] at h
    dsimp only at h
    rcases hH : lookupA s.heap r' with _ | pair
    · rw [hH] at h; simp at h
    · rw [hH] at h
      obtain ⟨i1, i2⟩ := pair
      dsimp only at h
      by_cases hid : i1.userId = u
      · rw [if_pos hid] at h
        simp only [Option.some.injEq, Prod.mk.injEq] at h
        obtain ⟨h1, h2, h3, h4⟩ := h
        subst h1; subst h2; subst h3; subst h4
        exact ⟨rfl, Or.inl ⟨rfl, hH, hid⟩⟩
      · rw [if_neg hid] at h
        simp only [Option.some.injEq, Prod.mk.injEq] at h
        obtain ⟨h1, h2, h3, h4⟩ := h
        subst h1; subst h2; subst h3; subst h4
        exact ⟨rfl, Or.inr ⟨rfl, hH, hid⟩⟩

/-- Refetching after writing the same users back to the pair keeps the
orientation: this is the source's `getTradeInfo` run again after a
mutation of the shared object. -/
theorem getT_putT (s : TMState) (u : UserId)
    (selfInfo otherInfo : UserTradeInfo) (r : Nat) (fst : Bool)
    (h : getT s u = some (selfInfo, otherInfo, r, fst))
    (selfInfo' otherInfo' : UserTradeInfo)
    (hsu : selfInfo'.userId = selfInfo.userId)
    (hou : otherInfo'.userId = otherInfo.userId) :
    getT (putT s r fst selfInfo' otherInfo') u =
      some (selfInfo', otherInfo', r, fst) := by
  obtain ⟨hT, hcase⟩ := getT_eq_some s u selfInfo otherInfo r fst h
  rcases hcase with ⟨hf, hH, hid⟩ | ⟨hf, hH, hid⟩ <;> subst hf
  · have hid' : selfInfo'.userId = u := hsu.trans hid
    simp [getT, putT, lookupA_setA, hT, hid']
  · have hid' : ¬ otherInfo'.userId = u := fun hc => hid (hou.symm.trans hc)
    simp [getT, putT, lookupA_setA, hT, hid']

/-- Case analysis of `lockIn`: the two `InventoryMistmatchError` throws
and the success path, as functions of multiset equality of the claimed
and stored inventories. -/
theorem lockIn_cases (s : TMState) (u : UserId)
    (selfInfo otherInfo : UserTradeInfo) (r : Nat) (fst : Bool)
    (a b : Inventory)
    (h : getT s u = some (selfInfo, otherInfo, r, fst)) :
    (¬ selfInfo.inventory.Perm a →
      lockIn u a b s = (s, [], some (.inventoryMismatch selfInfo.inventory a))) ∧
    (selfInfo.inventory.Perm a → ¬ otherInfo.inventory.Perm b →
      lockIn u a b s = (s, [], some (.inventoryMismatch otherInfo.inventory b))) ∧
    (selfInfo.inventory.Perm a → otherInfo.inventory.Perm b →
      lockIn u a b s =
        (putT s r fst { selfInfo with lockedIn := true } otherInfo,
         [.lockedIn u otherInfo.userId a b], none)) := by
  unfold lockIn
  rw [h]
  dsimp only
  refine ⟨?_, ?_, ?_⟩
  · intro hna
    have hfa : inventoriesEqual selfInfo.inventory a = false := by
      rcases hb : inventoriesEqual selfInfo.inventory a with _ | _
      · rfl
      · exact absurd ((inventoriesEqual_iff_perm _ _).mp hb) hna
    rw [if_pos hfa]
  · intro ha hnb
    have h1 : inventoriesEqual selfInfo.inventory a = true :=
      (inventoriesEqual_iff_perm _ _).mpr ha
    have h2 : inventoriesEqual otherInfo.inventory b = false := by
      rcases hb : inventoriesEqual otherInfo.inventory b with _ | _
      · rfl
      · exact absurd ((inventoriesEqual_iff_perm _ _).mp hb) hnb
    rw [if_neg (by simp [h1]), if_pos h2]
  · intro ha hb
    have h1 : inventoriesEqual selfInfo.inventory a = true :=
      (inventoriesEqual_iff_perm _ _).mpr ha
    have h2 : inventoriesEqual otherInfo.inventory b = true :=
      (inventoriesEqual_iff_perm _ _).mpr hb
    rw [if_neg (by simp [h1]), if_neg (by simp [h2])]

/-- C1: for a user in an active trade, `lockIn(u, selfClaim, otherClaim)`
succeeds if and only if `selfClaim` is multiset-equal to the stored self
inventory and `otherClaim` is multiset-equal to the stored partner
inventory; any permutation of the claims succeeds exactly when the
originals do; otherwise it fails with `InventoryMistmatchError` and
mutates nothing. -/
theorem lockIn_succeeds_iff_perm (s : TMState) (u : UserId)
    (selfInfo otherInfo : UserTradeInfo) (r : Nat) (fst : Bool)
    (a b : Inventory)
    (h : getT s u = some (selfInfo, otherInfo, r, fst)) :
    ((lockIn u a b s).2.2 = none ↔
      a.Perm selfInfo.inventory ∧ b.Perm otherInfo.inventory) ∧
    (¬(a.Perm selfInfo.inventory ∧ b.Perm otherInfo.inventory) →
      ∃ expected actual,
        (lockIn u a b s).2.2 = some (.inventoryMismatch expected actual) ∧
        (lockIn u a b s).1 = s) ∧
    (∀ a' b', a'.Perm a → b'.Perm b →
      ((lockIn u a' b' s).2.2 = none ↔ (lockIn u a b s).2.2 = none)) := by
  have key : ∀ x y : Inventory,
      ((lockIn u x y s).2.2 = none ↔
        x.Perm selfInfo.inventory ∧ y.Perm otherInfo.inventory) := by
    intro x y
    obtain ⟨h1, h2, h3⟩ := lockIn_cases s u selfInfo otherInfo r fst x y h
    by_cases hx : selfInfo.inventory.Perm x
    · by_cases hy : otherInfo.inventory.Perm y
      · rw [h3 hx hy]
        exact ⟨fun _ => ⟨hx.symm, hy.symm⟩, fun _ => rfl⟩
      · rw [h2 hx hy]
        constructor
        · intro hc; simp at hc
        · rintro ⟨_, hy'⟩; exact absurd hy'.symm hy
    · rw [h1 hx]
      constructor
      · intro hc; simp at hc
      · rintro ⟨hx', _⟩; exact absurd hx'.symm hx
  refine ⟨key a b, ?_, ?_⟩
  · intro hno
    obtain ⟨h1, h2, h3⟩ := lockIn_cases s u selfInfo otherInfo r fst a b h
    by_cases hx : selfInfo.inventory.Perm a
    · have hy : ¬ otherInfo.inventory.Perm b := by
        intro hy
        exact hno ⟨hx.symm, hy.symm⟩
      exact ⟨otherInfo.inventory, b, by rw [h2 hx hy], by rw [h2 hx hy]⟩
    · exact ⟨selfInfo.inventory, a, by rw [h1 hx], by rw [h1 hx]⟩
  · intro a' b' hpa hpb
    rw [key a' b', key a b]
    constructor
    · rintro ⟨h1, h2⟩; exact ⟨hpa.symm.trans h1, hpb.symm.trans h2⟩
    · rintro ⟨h1, h2⟩; exact ⟨hpa.trans h1, hpb.trans h2⟩

/-- C1 witness: a concrete trade state in which a permuted claim is
accepted by `lockIn`. -/
theorem lockIn_succeeds_iff_perm_witness :
    (lockIn "alice" ["y", "x"] ["z"]
      ⟨[("alice", 0), ("bob", 0)],
       [(0, (⟨"alice", ["x", "y"], false, false⟩,
             ⟨"bob", ["z"], false, false⟩))], 1⟩).2.2 = none :=
  ((lockIn_succeeds_iff_perm
      ⟨[("alice", 0), ("bob", 0)],
       [(0, (⟨"alice", ["x", "y"], false, false⟩,
             ⟨"bob", ["z"], false, false⟩))], 1⟩
      "alice" ⟨"alice", ["x", "y"], false, false⟩
      ⟨"bob", ["z"], false, false⟩ 0 true ["y", "x"] ["z"]
      (by decide)).1).mpr ⟨by decide, by decide⟩

/-- C4: the current `TradeManager.userDisconnected` body is a bare
`// TODO`, so a disconnect during a trade leaves the trade pair fully
registered for both users and fires no callback, contrary to the
specified cancel-on-disconnect behaviour. -/
theorem userDisconnected_leaves_trade_registered :
    userDisconnected "alice" (startTrade "alice" "bob" initTM).1 =
      ((startTrade "alice" "bob" initTM).1, [], none) ∧
    lookupA (userDisconnected "alice"
        (startTrade "alice" "bob" initTM).1).1.trades "alice" = some 0 ∧
    lookupA (userDisconnected "alice"
        (startTrade "alice" "bob" initTM).1).1.trades "bob" = some 0 := by
  refine ⟨rfl, by decide, by decide⟩

end TradeManager

namespace TradeManager

/-- C3: for a user in a trade pair, `completeTrade(u)` throws
`CantCompleteEitherUnlockedError` exactly when a side is not locked in,
and then mutates nothing; on success it sets the caller's `accepted`
flag, and it removes both registry entries and fires `onComplete` with
the pair exactly when the partner had already accepted, otherwise the
pair stays registered and no completion callback fires. -/
theorem completeTrade_spec (s : TMState) (u : UserId)
    (selfInfo otherInfo : UserTradeInfo) (r : Nat) (fst : Bool)
    (h : getT s u = some (selfInfo, otherInfo, r, fst)) :
    ((completeTrade u s).2.2 = some .cantCompleteEitherUnlocked ↔
      (selfInfo.lockedIn = false ∨ otherInfo.lockedIn = false)) ∧
    ((selfInfo.lockedIn = false ∨ otherInfo.lockedIn = false) →
      completeTrade u s = (s, [], some .cantCompleteEitherUnlocked)) ∧
    (selfInfo.lockedIn = true → otherInfo.lockedIn = true →
      (completeTrade u s).2.2 = none ∧
      lookupA (completeTrade u s).1.heap r =
        some (if fst then ({ selfInfo with accepted := true }, otherInfo)
              else (otherInfo, { selfInfo with accepted := true })) ∧
      (otherInfo.accepted = true →
        lookupA (completeTrade u s).1.trades u = none ∧
        lookupA (completeTrade u s).1.trades otherInfo.userId = none ∧
        (completeTrade u s).2.1 =
          [.complete ({ selfInfo with accepted := true }, otherInfo)]) ∧
      (otherInfo.accepted = false →
        (completeTrade u s).1.trades = s.trades ∧
        (completeTrade u s).2.1 = [])) := by
  unfold completeTrade
  rw [h]
  dsimp only
  cases hsl : selfInfo.lockedIn with
  | false =>
    rw [if_pos (Or.inl (by simp))]
    refine ⟨⟨fun _ => Or.inl rfl, fun _ => rfl⟩, fun _ => rfl, ?_⟩
    intro hc
    simp at hc
  | true =>
    cases hol : otherInfo.lockedIn with
    | false =>
      rw [if_pos (Or.inr (by simp))]
      refine ⟨⟨fun _ => Or.inr rfl, fun _ => rfl⟩, fun _ => rfl, ?_⟩
      intro _ hc
      simp at hc
    | true =>
      rw [if_neg (by simp)]
      refine ⟨?_, ?_, ?_⟩
      · constructor
        · intro hc
          cases hoa : otherInfo.accepted <;> rw [hoa] at hc <;> simp at hc
        · rintro (hc | hc) <;> simp at hc
      · rintro (hc | hc) <;> simp at hc
      · intro _ _
        cases hoa : otherInfo.accepted with
        | false =>
          rw [if_neg (by simp)]
          refine ⟨rfl, ?_, ?_, fun _ => ⟨rfl, rfl⟩⟩
          · simp [putT, lookupA_setA]
          · intro hc; simp at hc
        | true =>
          rw [if_pos rfl]
          refine ⟨rfl, ?_, fun _ => ⟨?_, ?_, rfl⟩, ?_⟩
          · simp [putT, lookupA_setA]
          · simp [putT, lookupA_eraseA]
          · simp [putT, lookupA_eraseA]
          · intro hc; simp at hc

/-- C3 witness: both sides locked, partner not yet accepted, so
`completeTrade` succeeds without removing the pair. -/
theorem completeTrade_spec_witness :
    (completeTrade "a"
      ⟨[("a", 0), ("b", 0)],
       [(0, (⟨"a", ["x"], true, false⟩, ⟨"b", ["y"], true, false⟩))],
       1⟩).2.2 = none :=
  ((completeTrade_spec
      ⟨[("a", 0), ("b", 0)],
       [(0, (⟨"a", ["x"], true, false⟩, ⟨"b", ["y"], true, false⟩))], 1⟩
      "a" ⟨"a", ["x"], true, false⟩ ⟨"b", ["y"], true, false⟩ 0 true
      (by decide)).2.2 rfl rfl).1

/-- C10: `updateInventory(u, inv)` never compares `inv` with the stored
inventory: even when `inv` is multiset-equal (in particular identical) to
what is already stored, the call succeeds, both sides end up not locked
in, and the unlock callback fires for exactly the sides that were locked,
followed by the `onUpdate` notification. -/
theorem updateInventory_unlocks_unconditionally (s : TMState) (u : UserId)
    (selfInfo otherInfo : UserTradeInfo) (r : Nat) (fst : Bool)
    (inv : Inventory)
    (h : getT s u = some (selfInfo, otherInfo, r, fst))
    (_hsame : inv.Perm selfInfo.inventory) :
    (updateInventory u inv s).2.2 = none ∧
    (∃ p, lookupA (updateInventory u inv s).1.heap r = some p ∧
      p.1.lockedIn = false ∧ p.2.lockedIn = false) ∧
    (updateInventory u inv s).2.1 =
      (if selfInfo.lockedIn then [TMEvent.unlocked u otherInfo.userId]
       else []) ++
      (if otherInfo.lockedIn then [TMEvent.unlocked otherInfo.userId u]
       else []) ++
      [TMEvent.update otherInfo.userId inv] := by
  have hget1 : getT (putT s r fst { selfInfo with inventory := inv }
      otherInfo) u =
      some ({ selfInfo with inventory := inv }, otherInfo, r, fst) :=
    getT_putT s u selfInfo otherInfo r fst h _ _ rfl rfl
  unfold updateInventory
  rw [h]
  dsimp only
  unfold unlockBothUsersFromTradeOf
  rw [hget1]
  dsimp only
  cases fst <;> cases hsl : selfInfo.lockedIn <;>
    cases hol : otherInfo.lockedIn <;>
    simp [putT, lookupA_setA, hsl, hol]

/-- C10 witness: resubmitting the identical inventory still unlocks both
locked sides and fires both unlock callbacks. -/
theorem updateInventory_unlocks_unconditionally_witness :
    (updateInventory "a" ["x"]
      ⟨[("a", 0), ("b", 0)],
       [(0, (⟨"a", ["x"], true, false⟩, ⟨"b", [], true, false⟩))],
       1⟩).2.1 =
      [TMEvent.unlocked "a" "b", TMEvent.unlocked "b" "a",
       TMEvent.update "b" ["x"]] :=
  (updateInventory_unlocks_unconditionally
      ⟨[("a", 0), ("b", 0)],
       [(0, (⟨"a", ["x"], true, false⟩, ⟨"b", [], true, false⟩))], 1⟩
      "a" ⟨"a", ["x"], true, false⟩ ⟨"b", [], true, false⟩ 0 true ["x"]
      (by decide) (by decide)).2.2

end TradeManager

namespace TradeManager

theorem heapInv_initTM : HeapInv initTM := by
  intro r p hp
  simp [initTM, lookupA] at hp

theorem heapInv_putT (s : TMState) (r : Nat) (fst : Bool)
    (a b : UserTradeInfo) (hs : HeapInv s) (ha : sideOK a) (hb : sideOK b) :
    HeapInv (putT s r fst a b) := by
  intro r' p hp
  unfold putT at hp
  dsimp only at hp
  rw [lookupA_setA] at hp
  by_cases hr : r' = r
  · rw [if_pos hr] at hp
    cases fst <;> simp only [Option.some.injEq] at hp <;> subst hp
    · exact ⟨hb, ha⟩
    · exact ⟨ha, hb⟩
  · rw [if_neg hr] at hp
    exact hs r' p hp

theorem getT_sideOK (s : TMState) (u : UserId)
    (selfInfo otherInfo : UserTradeInfo) (r : Nat) (fst : Bool)
    (h : getT s u = some (selfInfo, otherInfo, r, fst)) (hs : HeapInv s) :
    sideOK selfInfo ∧ sideOK otherInfo := by
  obtain ⟨_, hcase⟩ := getT_eq_some s u selfInfo otherInfo r fst h
  rcases hcase with ⟨_, hH, _⟩ | ⟨_, hH, _⟩
  · exact hs r _ hH
  · exact ⟨(hs r _ hH).2, (hs r _ hH).1⟩

theorem heapInv_unlockBoth (u : UserId) (s : TMState) (hs : HeapInv s) :
    HeapInv (unlockBothUsersFromTradeOf u s).1 := by
  unfold unlockBothUsersFromTradeOf
  rcases hget : getT s u with _ | ⟨selfInfo, otherInfo, r, fst⟩
  · exact hs
  · obtain ⟨hso, hoo⟩ := getT_sideOK s u selfInfo otherInfo r fst hget hs
    dsimp only
    by_cases hsl : selfInfo.lockedIn = true
    · rw [if_pos hsl]
      by_cases hol : otherInfo.lockedIn = true
      · rw [if_pos hol]
        exact heapInv_putT s r fst _ _ hs (fun hc => by simp at hc)
          (fun hc => by simp at hc)
      · rw [if_neg hol]
        exact heapInv_putT s r fst _ _ hs (fun hc => by simp at hc) hoo
    · rw [if_neg hsl]
      by_cases hol : otherInfo.lockedIn = true
      · rw [if_pos hol]
        exact heapInv_putT s r fst _ _ hs hso (fun hc => by simp at hc)
      · rw [if_neg hol]
        exact hs

theorem heapInv_step (op : TMOp) (s : TMState) (hs : HeapInv s) :
    HeapInv (stepTM op s) := by
  cases op with
  | startTrade u1 u2 =>
    unfold stepTM applyTM startTrade
    dsimp only
    intro r p hp
    rw [lookupA_setA] at hp
    by_cases hr : r = s.nextRef
    · rw [if_pos hr] at hp
      simp only [Option.some.injEq] at hp
      subst hp
      exact ⟨fun hc => by simp at hc, fun hc => by simp at hc⟩
    · rw [if_neg hr] at hp
      exact hs r p hp
  | updateInventory u inv =>
    rcases hget : getT s u with _ | ⟨selfInfo, otherInfo, r, fst⟩
    · unfold stepTM applyTM updateInventory
      dsimp only
      rw [hget]
      exact hs
    · obtain ⟨hso, hoo⟩ := getT_sideOK s u selfInfo otherInfo r fst hget hs
      unfold stepTM applyTM updateInventory
      dsimp only
      rw [hget]
      dsimp only
      have h1 : HeapInv (putT s r fst { selfInfo with inventory := inv }
          otherInfo) :=
        heapInv_putT s r fst _ _ hs hso hoo
      exact heapInv_unlockBoth u _ h1
  | lockIn u a b =>
    rcases hget : getT s u with _ | ⟨selfInfo, otherInfo, r, fst⟩
    · unfold stepTM applyTM lockIn
      dsimp only
      rw [hget]
      exact hs
    · obtain ⟨hso, hoo⟩ := getT_sideOK s u selfInfo otherInfo r fst hget hs
      unfold stepTM applyTM lockIn
      dsimp only
      rw [hget]
      dsimp only
      split_ifs with h1 h2
      · exact hs
      · exact hs
      · exact heapInv_putT s r fst _ _ hs (fun _ => rfl) hoo
  | unlock u =>
    rcases hget : getT s u with _ | ⟨selfInfo, otherInfo, r, fst⟩
    · unfold stepTM applyTM unlock
      dsimp only
      rw [hget]
      exact hs
    · obtain ⟨hso, hoo⟩ := getT_sideOK s u selfInfo otherInfo r fst hget hs
      unfold stepTM applyTM unlock
      dsimp only
      rw [hget]
      dsimp only
      exact heapInv_putT s r fst _ _ hs (fun hc => by simp at hc) hoo
  | cancelTrade u =>
    rcases hget : getT s u with _ | ⟨selfInfo, otherInfo, r, fst⟩
    · unfold stepTM applyTM cancelTrade
      dsimp only
      rw [hget]
      exact hs
    · unfold stepTM applyTM cancelTrade
      dsimp only
      rw [hget]
      dsimp only
      intro r' p hp
      exact hs r' p hp
  | completeTrade u =>
    rcases hget : getT s u with _ | ⟨selfInfo, otherInfo, r, fst⟩
    · unfold stepTM applyTM completeTrade
      dsimp only
      rw [hget]
      exact hs
    · obtain ⟨hso, hoo⟩ := getT_sideOK s u selfInfo otherInfo r fst hget hs
      unfold stepTM applyTM completeTrade
      dsimp only
      rw [hget]
      dsimp only
      split_ifs with h1 h2
      · exact hs
      · have hsl : selfInfo.lockedIn = true := by
          rcases hb : selfInfo.lockedIn with _ | _
          · exact absurd (Or.inl (by simp [hb])) h1
          · rfl
        have hput : HeapInv (putT s r fst { selfInfo with accepted := true }
            otherInfo) :=
          heapInv_putT s r fst _ _ hs (fun _ => hsl) hoo
        intro r' p hp
        exact hput r' p hp
      · have hsl : selfInfo.lockedIn = true := by
          rcases hb : selfInfo.lockedIn with _ | _
          · exact absurd (Or.inl (by simp [hb])) h1
          · rfl
        exact heapInv_putT s r fst _ _ hs (fun _ => hsl) hoo


theorem heapInv_reachable (s : TMState) (h : TMReachable s) : HeapInv s := by
  obtain ⟨ops, rfl⟩ := h
  have key : ∀ (l : List TMOp) (t : TMState), HeapInv t →
      HeapInv (l.foldl (fun t op => stepTM op t) t) := by
    intro l
    induction l with
    | nil => intro t ht; exact ht
    | cons op rest ih =>
      intro t ht
      exact ih (stepTM op t) (heapInv_step op t ht)
  exact key ops initTM heapInv_initTM

/-- C2: in every state reachable by a sequence of `TradeManager`
operations, every registered `UserTradeInfo` record satisfies
`accepted ⇒ lockedIn`. -/
theorem reachable_accepted_implies_lockedIn (s : TMState)
    (h : TMReachable s) :
    ∀ u r p, lookupA s.trades u = some r → lookupA s.heap r = some p →
      (p.1.accepted = true → p.1.lockedIn = true) ∧
      (p.2.accepted = true → p.2.lockedIn = true) := by
  intro u r p _ hp
  exact heapInv_reachable s h r p hp

/-- C2 witness: the invariant instantiated at a concrete reachable state
in which a trade has been locked in and half-completed. -/
theorem reachable_accepted_implies_lockedIn_witness :
    ((⟨"a", [], true, true⟩ : UserTradeInfo).accepted = true →
      (⟨"a", [], true, true⟩ : UserTradeInfo).lockedIn = true) ∧
    ((⟨"b", [], true, false⟩ : UserTradeInfo).accepted = true →
      (⟨"b", [], true, false⟩ : UserTradeInfo).lockedIn = true) :=
  reachable_accepted_implies_lockedIn
    ([TMOp.startTrade "a" "b", TMOp.updateInventory "a" [],
      TMOp.lockIn "a" [] [], TMOp.lockIn "b" [] [],
      TMOp.completeTrade "a"].foldl (fun t op => stepTM op t) initTM)
    ⟨[TMOp.startTrade "a" "b", TMOp.updateInventory "a" [],
      TMOp.lockIn "a" [] [], TMOp.lockIn "b" [] [],
      TMOp.completeTrade "a"], rfl⟩
    "a" 0 (⟨"a", [], true, true⟩, ⟨"b", [], true, false⟩)
    (by decide) (by decide)

end TradeManager

namespace InviteManager

theorem info_setInfo (s : IMState) (u : UserId) (i : InviteInfo) (v : UserId) :
    info (setInfo s u i) v = if v = u then i else info s v := by
  unfold info setInfo
  dsimp only
  rw [lookupA_setA]
  split_ifs <;> rfl

theorem inviteExists_iff (f t : UserId) (s : IMState) :
    inviteExists f t s = true ↔ (info s f).inviteSentTo = some t := by
  unfold inviteExists
  simp

theorem addPendingInvite_err (f t : UserId) (s : IMState) (w : UserId)
    (h : (info s f).inviteSentTo = some w) :
    addPendingInvite f t s = (s, some .internal) := by
  unfold addPendingInvite
  dsimp only
  rw [h]

theorem addPendingInvite_eq (f t : UserId) (s : IMState)
    (h : (info s f).inviteSentTo = none) :
    addPendingInvite f t s =
      (setInfo (setInfo s f { info s f with inviteSentTo := some t }) t
        { info (setInfo s f { info s f with inviteSentTo := some t }) t with
            pendingInvites :=
              sadd (info (setInfo s f
                { info s f with inviteSentTo := some t }) t).pendingInvites
                f },
       none) := by
  unfold addPendingInvite
  dsimp only
  rw [h]

theorem addPendingInvite_sentTo (f t : UserId) (s : IMState)
    (h : (info s f).inviteSentTo = none) (x : UserId) :
    (info (addPendingInvite f t s).1 x).inviteSentTo =
      if x = f then some t else (info s x).inviteSentTo := by
  rw [addPendingInvite_eq f t s h]
  dsimp only
  simp only [info_setInfo]
  split_ifs <;> simp_all

theorem addPendingInvite_pend (f t : UserId) (s : IMState)
    (h : (info s f).inviteSentTo = none) (x : UserId) :
    (info (addPendingInvite f t s).1 x).pendingInvites =
      if x = t then sadd (info s t).pendingInvites f
      else (info s x).pendingInvites := by
  rw [addPendingInvite_eq f t s h]
  dsimp only
  simp only [info_setInfo]
  split_ifs <;> simp_all

theorem removePendingInvite_sentTo (f t x : UserId) (s : IMState) :
    (info (removePendingInvite f t s) x).inviteSentTo =
      if x = f then none else (info s x).inviteSentTo := by
  unfold removePendingInvite
  dsimp only
  simp only [info_setInfo]
  split_ifs <;> simp_all

theorem removePendingInvite_pend (f t x : UserId) (s : IMState) :
    (info (removePendingInvite f t s) x).pendingInvites =
      if x = t then sdel (info s t).pendingInvites f
      else (info s x).pendingInvites := by
  unfold removePendingInvite
  dsimp only
  simp only [info_setInfo]
  split_ifs <;> simp_all

theorem removePendingInvite_notifs (f t x : UserId) (s : IMState) :
    (info (removePendingInvite f t s) x).pendingNotifications =
      (info s x).pendingNotifications := by
  unfold removePendingInvite
  dsimp only
  simp only [info_setInfo]
  split_ifs <;> simp_all

theorem addPendingNotification_sentTo (f t x : UserId) (s : IMState) :
    (info (addPendingNotification f t s) x).inviteSentTo =
      (info s x).inviteSentTo := by
  unfold addPendingNotification
  dsimp only
  simp only [info_setInfo]
  split_ifs <;> simp_all

theorem addPendingNotification_pend (f t x : UserId) (s : IMState) :
    (info (addPendingNotification f t s) x).pendingInvites =
      (info s x).pendingInvites := by
  unfold addPendingNotification
  dsimp only
  simp only [info_setInfo]
  split_ifs <;> simp_all

theorem userConnected_sentTo (u x : UserId) (s : IMState) :
    (info (userConnected u s).1 x).inviteSentTo =
      (info s x).inviteSentTo := by
  unfold userConnected
  dsimp only
  simp only [info_setInfo]
  split_ifs <;> simp_all

theorem userConnected_pend (u x : UserId) (s : IMState) :
    (info (userConnected u s).1 x).pendingInvites =
      (info s x).pendingInvites := by
  unfold userConnected
  dsimp only
  simp only [info_setInfo]
  split_ifs <;> simp_all

theorem Inv_congr (s s' : IMState)
    (h1 : ∀ x, (info s' x).inviteSentTo = (info s x).inviteSentTo)
    (h2 : ∀ x, (info s' x).pendingInvites = (info s x).pendingInvites)
    (hinv : Inv s) : Inv s' := by
  intro u v
  rw [h1, h2]
  exact hinv u v

theorem Inv_initIM : Inv initIM := by
  intro u v
  constructor
  · intro hc
    simp [initIM, info, lookupA] at hc
  · intro hm
    simp [initIM, info, lookupA] at hm

end InviteManager

namespace InviteManager

theorem inv_addPendingInvite (f t : UserId) (s : IMState) (hinv : Inv s) :
    Inv (addPendingInvite f t s).1 := by
  rcases h0 : (info s f).inviteSentTo with _ | w
  · intro u v
    rw [addPendingInvite_sentTo f t s h0, addPendingInvite_pend f t s h0]
    by_cases huf : u = f
    · subst huf
      rw [if_pos rfl]
      by_cases hvt : v = t
      · subst hvt
        rw [if_pos rfl, mem_sadd]
        exact ⟨fun _ => Or.inr rfl, fun _ => rfl⟩
      · rw [if_neg hvt]
        constructor
        · intro hc
          injection hc with hc
          exact absurd hc.symm hvt
        · intro hm
          have hst := (hinv u v).mpr hm
          rw [h0] at hst
          cases hst
    · rw [if_neg huf]
      by_cases hvt : v = t
      · subst hvt
        rw [if_pos rfl, mem_sadd]
        constructor
        · intro hst
          exact Or.inl ((hinv u v).mp hst)
        · rintro (hm | hm)
          · exact (hinv u v).mpr hm
          · exact absurd hm huf
      · rw [if_neg hvt]
        exact hinv u v
  · rw [addPendingInvite_err f t s w h0]
    exact hinv

theorem inv_removePendingInvite (f t : UserId) (s : IMState) (hinv : Inv s)
    (h : (info s f).inviteSentTo = some t) :
    Inv (removePendingInvite f t s) := by
  intro u v
  rw [removePendingInvite_sentTo, removePendingInvite_pend]
  by_cases huf : u = f
  · subst huf
    rw [if_pos rfl]
    constructor
    · intro hc
      cases hc
    · intro hmem
      by_cases hvt : v = t
      · subst hvt
        rw [if_pos rfl, mem_sdel] at hmem
        exact absurd rfl hmem.2
      · rw [if_neg hvt] at hmem
        have hst := (hinv u v).mpr hmem
        rw [h] at hst
        injection hst with hst
        exact absurd hst.symm hvt
  · rw [if_neg huf]
    by_cases hvt : v = t
    · subst hvt
      rw [if_pos rfl, mem_sdel]
      constructor
      · intro hst
        exact ⟨(hinv u v).mp hst, huf⟩
      · rintro ⟨hm, _⟩
        exact (hinv u v).mpr hm
    · rw [if_neg hvt]
      exact hinv u v

theorem inv_sendInvite (f t : UserId) (s : IMState) (hinv : Inv s) :
    Inv (sendInvite f t s).1 := by
  unfold sendInvite
  rcases ha : addPendingInvite f t s with ⟨s1, e⟩
  have h1 : Inv s1 := by
    have hp := inv_addPendingInvite f t s hinv
    rw [ha] at hp
    exact hp
  cases e with
  | some err => exact h1
  | none =>
    dsimp only
    split_ifs with hc
    · exact h1
    · exact Inv_congr s1 _ (fun x => addPendingNotification_sentTo f t x s1)
        (fun x => addPendingNotification_pend f t x s1) h1

theorem inv_cancelInvite (f : UserId) (s : IMState) (hinv : Inv s) :
    Inv (cancelInvite f s).1 := by
  unfold cancelInvite
  rcases h0 : (info s f).inviteSentTo with _ | t
  · exact hinv
  · dsimp only
    split_ifs with hc
    · exact inv_removePendingInvite f t s hinv h0
    · exact hinv

theorem inv_acceptInvite (f t : UserId) (s : IMState) (hinv : Inv s) :
    Inv (acceptInvite f t s).1 := by
  unfold acceptInvite
  split_ifs with hc
  · exact inv_removePendingInvite f t s hinv ((inviteExists_iff f t s).mp hc)
  · exact hinv

theorem inv_rejectInvite (f t : UserId) (s : IMState) (hinv : Inv s) :
    Inv (rejectInvite f t s).1 := by
  unfold rejectInvite
  split_ifs with hc
  · exact inv_removePendingInvite f t s hinv ((inviteExists_iff f t s).mp hc)
  · exact hinv

theorem inv_userConnected (u : UserId) (s : IMState) (hinv : Inv s) :
    Inv (userConnected u s).1 :=
  Inv_congr s _ (fun x => userConnected_sentTo u x s)
    (fun x => userConnected_pend u x s) hinv

theorem rejectInvite_success (f t : UserId) (s : IMState)
    (h : (rejectInvite f t s).2.2 = none) :
    (rejectInvite f t s).1 = removePendingInvite f t s ∧
    (info s f).inviteSentTo = some t := by
  by_cases hc : inviteExists f t s = true
  · constructor
    · unfold rejectInvite
      rw [if_pos hc]
    · exact (inviteExists_iff f t s).mp hc
  · exfalso
    unfold rejectInvite at h
    rw [if_neg hc] at h
    simp at h

theorem inv_rejectLoop (u : UserId) (l : List UserId) (s : IMState)
    (hinv : Inv s) : Inv (rejectLoop u l s).1 := by
  induction l generalizing s with
  | nil => exact hinv
  | cons f rest ih =>
    unfold rejectLoop
    rcases hr : rejectInvite f u s with ⟨s1, evs1, e⟩
    have h1 : Inv s1 := by
      have hp := inv_rejectInvite f u s hinv
      rw [hr] at hp
      exact hp
    cases e with
    | some err => exact h1
    | none =>
      dsimp only
      rcases hl : rejectLoop u rest s1 with ⟨s2, evs2, e2⟩
      have h2 : Inv s2 := by
        have hp := ih s1 h1
        rw [hl] at hp
        exact hp
      exact h2

theorem rejectLoop_clears (u : UserId) (l : List UserId) (s : IMState)
    (hinv : Inv s) (hsub : ∀ x ∈ (info s u).pendingInvites, x ∈ l)
    (hsucc : (rejectLoop u l s).2.2 = none) :
    (info (rejectLoop u l s).1 u).pendingInvites = [] := by
  induction l generalizing s with
  | nil =>
    refine List.eq_nil_iff_forall_not_mem.mpr (fun x hx => ?_)
    have hm := hsub x hx
    simp at hm
  | cons f rest ih =>
    unfold rejectLoop at hsucc ⊢
    rcases hr : rejectInvite f u s with ⟨s1, evs1, e⟩
    rw [hr] at hsucc
    cases e with
    | some err => simp at hsucc
    | none =>
      dsimp only at hsucc ⊢
      obtain ⟨hs1, hxst⟩ := rejectInvite_success f u s (by rw [hr])
      rw [hr] at hs1
      dsimp only at hs1
      have h1 : Inv s1 := by
        have hp := inv_rejectInvite f u s hinv
        rw [hr] at hp
        exact hp
      have hsub1 : ∀ x ∈ (info s1 u).pendingInvites, x ∈ rest := by
        intro x hx
        rw [hs1, removePendingInvite_pend, if_pos rfl, mem_sdel] at hx
        have hxl := hsub x hx.1
        rcases List.mem_cons.mp hxl with hxf | hxr
        · exact absurd hxf hx.2
        · exact hxr
      rcases hl : rejectLoop u rest s1 with ⟨s2, evs2, e2⟩
      rw [hl] at hsucc
      cases e2 with
      | some err => simp at hsucc
      | none =>
        dsimp only
        have hp := ih s1 h1 hsub1 (by rw [hl])
        rw [hl] at hp
        exact hp

theorem inv_disconnectTail (u : UserId) (evs1 : List IMEvent) (s1 : IMState)
    (h1 : Inv s1) : Inv (disconnectTail u evs1 s1).1 := by
  unfold disconnectTail
  rcases hl : rejectLoop u (info s1 u).pendingInvites s1 with ⟨s2, evs2, e2⟩
  have h2 : Inv s2 := by
    have hp := inv_rejectLoop u (info s1 u).pendingInvites s1 h1
    rw [hl] at hp
    exact hp
  cases e2 with
  | some e => exact h2
  | none =>
    dsimp only
    have hclear : (info s2 u).pendingInvites = [] := by
      have hp := rejectLoop_clears u (info s1 u).pendingInvites s1 h1
        (fun x hx => hx) (by rw [hl])
      rw [hl] at hp
      exact hp
    refine Inv_congr s2 _ ?_ ?_ h2
    · intro x
      rw [info_setInfo]
      split_ifs with hx
      · subst hx; rfl
      · rfl
    · intro x
      rw [info_setInfo]
      split_ifs with hx
      · subst hx
        simp [hclear]
      · rfl

theorem inv_userDisconnected (u : UserId) (s : IMState) (hinv : Inv s) :
    Inv (userDisconnected u s).1 := by
  unfold userDisconnected
  dsimp only
  rcases h0 : (info s u).inviteSentTo with _ | t
  · exact inv_disconnectTail u [] s hinv
  · rcases hc : cancelInvite u s with ⟨s1, evs1, e1⟩
    have h1 : Inv s1 := by
      have hp := inv_cancelInvite u s hinv
      rw [hc] at hp
      exact hp
    cases e1 with
    | some e => exact h1
    | none =>
      dsimp only
      exact inv_disconnectTail u evs1 s1 h1

end InviteManager

namespace InviteManager

/-- C5: every `InviteManager` operation (sendInvite, cancelInvite,
acceptInvite, rejectInvite, userConnected, userDisconnected) preserves
the invariant that `u.inviteSentTo = v` exactly when `u` is a member of
`v.pendingInvites`. -/
theorem inviteManager_invariant_preserved (op : IMOp) (s : IMState)
    (hinv : Inv s) : Inv (applyIM op s).1 := by
  cases op with
  | sendInvite f t => exact inv_sendInvite f t s hinv
  | cancelInvite f => exact inv_cancelInvite f s hinv
  | acceptInvite f t => exact inv_acceptInvite f t s hinv
  | rejectInvite f t => exact inv_rejectInvite f t s hinv
  | userConnected u => exact inv_userConnected u s hinv
  | userDisconnected u => exact inv_userDisconnected u s hinv

/-- C5 witness: the invariant holds initially and after a concrete
`sendInvite`. -/
theorem inviteManager_invariant_preserved_witness :
    Inv (applyIM (IMOp.sendInvite "a" "b") initIM).1 :=
  inviteManager_invariant_preserved (IMOp.sendInvite "a" "b") initIM
    Inv_initIM

/-- C6: `userConnected(u)` fires the invite-sent callback exactly once for
each sender queued in `u.pendingNotifications` and for no other sender,
clears `pendingNotifications`, and leaves `u.pendingInvites` unchanged. -/
theorem userConnected_drains_pendingNotifications (s : IMState)
    (u : UserId) (hnd : (info s u).pendingNotifications.Nodup) :
    (userConnected u s).2.2 = none ∧
    (userConnected u s).2.1 =
      (info s u).pendingNotifications.map (fun f => IMEvent.sent f u) ∧
    (∀ f t : UserId, ((userConnected u s).2.1).count (IMEvent.sent f t) =
      if t = u ∧ f ∈ (info s u).pendingNotifications then 1 else 0) ∧
    (∀ f t : UserId, IMEvent.accepted f t ∉ (userConnected u s).2.1 ∧
      IMEvent.rejected f t ∉ (userConnected u s).2.1 ∧
      IMEvent.cancelled f t ∉ (userConnected u s).2.1) ∧
    (info (userConnected u s).1 u).pendingNotifications = [] ∧
    (info (userConnected u s).1 u).pendingInvites =
      (info s u).pendingInvites := by
  have hinj : Function.Injective (fun f => IMEvent.sent f u) := by
    intro a b hab
    injection hab
  refine ⟨rfl, rfl, ?_, ?_, ?_, ?_⟩
  · intro f t
    show (((info s u).pendingNotifications.map
        (fun f => IMEvent.sent f u)).count (IMEvent.sent f t)) = _
    by_cases ht : t = u
    · subst ht
      rw [List.count_map_of_injective _ _ hinj]
      by_cases hf : f ∈ (info s t).pendingNotifications
      · rw [if_pos ⟨rfl, hf⟩]
        exact List.count_eq_one_of_mem hnd hf
      · rw [if_neg (fun hc => hf hc.2)]
        exact List.count_eq_zero_of_not_mem hf
    · rw [if_neg (fun hc => ht hc.1)]
      refine List.count_eq_zero_of_not_mem (fun hc => ?_)
      obtain ⟨x, _, hx⟩ := List.mem_map.mp hc
      injection hx with _ hx2
      exact ht hx2.symm
  · intro f t
    refine ⟨?_, ?_, ?_⟩ <;>
      · show _ ∉ (info s u).pendingNotifications.map
          (fun f => IMEvent.sent f u)
        intro hc
        obtain ⟨x, _, hx⟩ := List.mem_map.mp hc
        cases hx
  · show (info (setInfo s u _) u).pendingNotifications = []
    rw [info_setInfo, if_pos rfl]
  · show (info (setInfo s u _) u).pendingInvites = _
    rw [info_setInfo, if_pos rfl]

/-- C6 witness: one queued notification is replayed on connect. -/
theorem userConnected_drains_pendingNotifications_witness :
    (userConnected "b" ⟨[("b", ⟨none, [], ["a"], false⟩)]⟩).2.1 =
      [IMEvent.sent "a" "b"] :=
  (userConnected_drains_pendingNotifications
    ⟨[("b", ⟨none, [], ["a"], false⟩)]⟩ "b" (by decide)).2.1

/-- C9 counterexample: from the initial state, `sendInvite a b` with `b`
offline followed by `cancelInvite a` reaches a state where `a` is still
in `b.pendingNotifications` but no longer in `b.pendingInvites`, and a
subsequent `userConnected b` replays the cancelled invite. -/
theorem pendingNotifications_subset_fails :
    "a" ∈ (info ([IMOp.sendInvite "a" "b", IMOp.cancelInvite "a"].foldl
      (fun t op => (applyIM op t).1) initIM) "b").pendingNotifications ∧
    "a" ∉ (info ([IMOp.sendInvite "a" "b", IMOp.cancelInvite "a"].foldl
      (fun t op => (applyIM op t).1) initIM) "b").pendingInvites ∧
    (userConnected "b" ([IMOp.sendInvite "a" "b",
      IMOp.cancelInvite "a"].foldl
      (fun t op => (applyIM op t).1) initIM)).2.1 =
      [IMEvent.sent "a" "b"] := by
  refine ⟨by decide, by decide, by decide⟩

/-- C9 amended: resolving an invite (cancel, accept or reject) never
touches any user's `pendingNotifications`: `removePendingInvite` of this
revision deletes the sender only from `pendingInvites`, so an invite
resolved while the recipient is offline is replayed as an
invite-received notification when the recipient connects. -/
theorem resolveInvite_preserves_pendingNotifications (s : IMState)
    (f t v : UserId) :
    (info (cancelInvite f s).1 v).pendingNotifications =
      (info s v).pendingNotifications ∧
    (info (acceptInvite f t s).1 v).pendingNotifications =
      (info s v).pendingNotifications ∧
    (info (rejectInvite f t s).1 v).pendingNotifications =
      (info s v).pendingNotifications := by
  refine ⟨?_, ?_, ?_⟩
  · unfold cancelInvite
    rcases h0 : (info s f).inviteSentTo with _ | w
    · rfl
    · dsimp only
      split_ifs with hc
      · exact removePendingInvite_notifs f w v s
      · rfl
  · unfold acceptInvite
    split_ifs with hc
    · exact removePendingInvite_notifs f t v s
    · rfl
  · unfold rejectInvite
    split_ifs with hc
    · exact removePendingInvite_notifs f t v s
    · rfl

end InviteManager

/-- C7: in the final `InviteManager` revision, `sendInvite(u, u)` throws
`SelfInviteError` before reading or writing any state, so the whole
invite state is unchanged and no callback fires. -/
theorem sendInvite_self_fails (s : InviteManagerFinal.IMState)
    (u : UserId) :
    InviteManagerFinal.sendInvite u u s =
      (s, [], some InviteManager.IMError.selfInvite) := by
  unfold InviteManagerFinal.sendInvite
  rw [if_pos rfl]

/-- C8: the final `TradeServer.handleAuthenticate` performs no check of
the connection registry: a second socket authenticating with a userId
that is already registered is registered anyway (overwriting the
registry entry) and no error is reported, contrary to the specified
rejection. -/
theorem handleAuthenticate_overwrites_existing_registration :
    TradeServer.handleAuthenticate (fun t => some t) 2 "alice"
        ⟨[("alice", 1)], [(1, ⟨some "alice", TradeServer.UserState.inLobby⟩)]⟩ =
      (⟨[("alice", 2)],
        [(1, ⟨some "alice", TradeServer.UserState.inLobby⟩),
         (2, ⟨some "alice", TradeServer.UserState.inLobby⟩)]⟩, none) := by
  decide
